import Mathlib

/-!
Shallow embedding of the record-ledger and period-lock core of `src/app.py`
(B-POINT point-tracking app, once-daily variant).

Modelling conventions:
* The SQLite database is a `State`: the `roster` table, the `records` table
  (as a list in rowid order), the `locks` table, and the AUTOINCREMENT
  counter `nextId`.
* The `d` column stores ISO `YYYY-MM-DD` text; SQL string comparison of such
  text is lexicographic on the zero-padded components, which coincides with
  componentwise lexicographic order on `(year, month, day)`, so dates are
  modelled as a `Date` triple with that order (`dateLt`, `dateLe`).
* `points REAL` is modelled as `ℚ`.
* The schema constraints `CHECK(points >= 0)` and `UNIQUE(d, emp_id)` are
  modelled at each write: a violating statement raises, and since every
  write runs inside a `with get_conn() as conn:` block the whole
  transaction is rolled back, so a violation yields the original state.
-/

namespace BPoint

/-- A calendar date as stored in the `d` TEXT column (`YYYY-MM-DD`). -/
structure Date where
  year : Nat
  month : Nat
  day : Nat
deriving DecidableEq, Repr

/-- Strict order on dates: lexicographic on (year, month, day), matching SQL
string comparison of ISO date text. -/
def dateLt (a b : Date) : Bool :=
  decide (a.year < b.year) ||
    (decide (a.year = b.year) &&
      (decide (a.month < b.month) ||
        (decide (a.month = b.month) && decide (a.day < b.day))))

/-- Non-strict order on dates (`d >= start` in SQL). -/
def dateLe (a b : Date) : Bool :=
  dateLt a b || decide (a = b)

/-- One row of the `roster` table (`emp_id`, `name`, `grp`). -/
structure RosterEntry where
  emp_id : String
  name : String
  grp : String
deriving DecidableEq, Repr

/-- One row of the `records` table. -/
structure Record where
  id : Nat
  d : Date
  emp_id : String
  grp : String
  points : ℚ
  shift : String
  memo : String
deriving DecidableEq, Repr

/-- The database state: roster, records (in rowid order), month locks as
`(year, month)` pairs (the `ym` text column), and the next AUTOINCREMENT id. -/
structure State where
  roster : List RosterEntry
  records : List Record
  locks : List (Nat × Nat)
  nextId : Nat
deriving DecidableEq, Repr

/-- Model of `is_locked` (app.py:73-77): the `(year, month)` of the date is in `locks`. -/
def is_locked (locks : List (Nat × Nat)) (dt : Date) : Bool :=
  locks.contains (dt.year, dt.month)

/-- Roster lookup used by `add_record` (app.py:165-169): find the employee's
group; `none` when the employee id is absent. -/
def lookupGrp (roster : List RosterEntry) (emp : String) : Option String :=
  match roster.find? (fun x => x.emp_id == emp) with
  | some x => some x.grp
  | none => none

/-- The `WHERE d=? AND emp_id=?` key test of `add_record`. -/
def keyMatch (d : Date) (emp : String) (r : Record) : Bool :=
  decide (r.d = d) && decide (r.emp_id = emp)

/-- Outcome of `add_record`: the two `st.error`/`return False` paths, the
`CHECK(points >= 0)` violation (uncaught exception, transaction rolled
back), and the two success paths. -/
inductive AddResult where
  | lockedErr
  | unknownEmp
  | checkViolation
  | updated
  | created
deriving DecidableEq, Repr

/-- Model of `add_record` (app.py:158-199): reject if the month is locked; reject if
the employee is not in the roster; if a record with the same `(d, emp_id)`
exists, `UPDATE` its `grp` and `points`; else `INSERT` a new row with empty
`shift` and `memo`.  A negative `points` violates `CHECK(points >= 0)` and
the transaction rolls back. -/
def add_record (d : Date) (emp : String) (points : ℚ) (st : State) :
    AddResult × State :=
  if is_locked st.locks d then (.lockedErr, st)
  else
    match lookupGrp st.roster emp with
    | none => (.unknownEmp, st)
    | some grp =>
      if st.records.any (keyMatch d emp) then
        if points < 0 then (.checkViolation, st)
        else
          (.updated,
            { st with
              records := st.records.map (fun r =>
                if keyMatch d emp r then { r with grp := grp, points := points }
                else r) })
      else
        if points < 0 then (.checkViolation, st)
        else
          (.created,
            { st with
              records := st.records ++ [⟨st.nextId, d, emp, grp, points, "", ""⟩],
              nextId := st.nextId + 1 })

/-- Model of `query_range` (app.py:113-125): `SELECT ... WHERE d >= start AND d < end`
(the column projection of the SELECT is omitted; rows are returned whole). -/
def query_range (start fin : Date) (st : State) : List Record :=
  st.records.filter (fun r => dateLe start r.d && dateLt r.d fin)

/-- Model of `month_range` inside `get_period` (app.py:230-236): first of the month to
first of the next month, rolling December to January of the next year. -/
def month_range (d : Date) : Date × Date :=
  (⟨d.year, d.month, 1⟩,
    if d.month = 12 then ⟨d.year + 1, 1, 1⟩ else ⟨d.year, d.month + 1, 1⟩)

/-- Model of `month_df` (app.py:127-133): the same start/end computation inlined, then
`query_range`. -/
def month_df (base : Date) (st : State) : List Record :=
  query_range ⟨base.year, base.month, 1⟩
    (if base.month = 12 then ⟨base.year + 1, 1, 1⟩ else ⟨base.year, base.month + 1, 1⟩)
    st

/-- The `UNIQUE(d, emp_id)` constraint of the `records` table as a predicate
on a record list. -/
def keysUnique : List Record → Bool
  | [] => true
  | r :: rs =>
    rs.all (fun s => !(decide (s.d = r.d) && decide (s.emp_id = r.emp_id))) &&
      keysUnique rs

/-- One edited row of the settings-page work buffer
(`st.session_state["records_work"]`): id, 日付, 社員ID, グループ, ポイント. -/
structure WorkRow where
  id : Nat
  date : Date
  emp_id : String
  grp : String
  points : ℚ
deriving DecidableEq, Repr

/-- The `UPDATE records SET d=?, emp_id=?, grp=?, points=? WHERE id=?` of the
batch-save loop (app.py:664-671), applied to one stored record. -/
def upd_row (row : WorkRow) (r : Record) : Record :=
  if row.id = r.id then
    { r with d := row.date, emp_id := row.emp_id, grp := row.grp,
             points := row.points }
  else r

/-- One `UPDATE ... WHERE id=?` statement over the whole table. -/
def applyRow (recs : List Record) (row : WorkRow) : List Record :=
  recs.map (upd_row row)

/-- Per-record effect of one work-buffer row: skipped when the submitted
row's date lies in a locked month, otherwise the `UPDATE` keyed by id. -/
def updStep (locks : List (Nat × Nat)) (r : Record) (row : WorkRow) : Record :=
  if is_locked locks row.date then r else upd_row row r

/-- The 修正を保存 loop (app.py:650-674) over the record table: each row is
skipped when `is_locked(new_date)`; otherwise the `UPDATE` runs, and if it
touched at least one record and violates `CHECK(points >= 0)` or
`UNIQUE(d, emp_id)` the exception aborts the whole transaction (`none`). -/
def batchUpdateGo (locks : List (Nat × Nat)) :
    List Record → List WorkRow → Option (List Record)
  | recs, [] => some recs
  | recs, row :: rest =>
    if is_locked locks row.date then batchUpdateGo locks recs rest
    else
      let newRecs := applyRow recs row
      if recs.any (fun r => decide (r.id = row.id)) &&
          (decide (row.points < 0) || !keysUnique newRecs) then none
      else batchUpdateGo locks newRecs rest

/-- The 修正を保存 button handler: run the loop inside one transaction;
`none` models the caught exception (rollback, ledger unchanged). -/
def batchUpdate (rows : List WorkRow) (st : State) : Option State :=
  (batchUpdateGo st.locks st.records rows).map
    (fun recs => { st with records := recs })

/-- The 選択した行を削除 handler (app.py:676-692): for each work-buffer row
whose id was selected, delete the record by id unless the row's (buffer)
date lies in a locked month. -/
def batchDelete (work : List WorkRow) (ids : List Nat) (st : State) : State :=
  { st with
    records :=
      (work.filter (fun row => ids.contains row.id)).foldl
        (fun recs row =>
          if is_locked st.locks row.date then recs
          else recs.filter (fun r => !decide (r.id = row.id)))
        st.records }

/-- The データリセット handler (app.py:802-817): `DELETE FROM records`
unconditionally (no lock check). -/
def data_reset (st : State) : State :=
  { st with records := [] }

/-- A CSV cell as pandas sees it after `read_csv`: numeric cells are parsed
numbers, date cells are ISO date text, everything else is text. -/
inductive Cell where
  | num (q : ℚ)
  | date (dt : Date)
  | str (s : String)
deriving DecidableEq, Repr

/-- A pandas DataFrame as a header row plus cell rows aligned with it. -/
structure Csv where
  cols : List String
  rows : List (List Cell)
deriving DecidableEq, Repr

/-- The `col_map` rename of the CSV importer (app.py:745-754): bilingual
header aliases mapped to the canonical column names, others unchanged. -/
def colMap (c : String) : String :=
  if c = "日付" then "d"
  else if c = "社員ID" then "emp_id"
  else if c = "チーム" then "grp"
  else if c = "グループ" then "grp"
  else if c = "ポイント" then "points"
  else if c = "メモ" then "memo"
  else if c = "シフト" then "shift"
  else c

/-- Model of `need_cols` (app.py:756). -/
def needCols : List String := ["d", "emp_id", "grp", "points"]

/-- Column access in a row by header name (first matching column, as in
pandas); missing columns read as empty text. -/
def getCell (cols : List String) (row : List Cell) (c : String) : Cell :=
  match cols.findIdx? (fun x => x == c) with
  | some i => row.getD i (.str "")
  | none => .str ""

/-- A date cell as stored into the `d` TEXT column. -/
def asDate : Cell → Date
  | .date dt => dt
  | _ => ⟨0, 0, 0⟩

/-- A text cell as stored into a TEXT column. -/
def asStr : Cell → String
  | .str s => s
  | _ => ""

/-- Model of `pd.to_numeric(..., errors="coerce").fillna(0.0)` (app.py:767): numeric
cells pass through, anything non-numeric becomes 0.0. -/
def coercePoints : Cell → ℚ
  | .num q => q
  | _ => 0

/-- The field tuple of a record, without the internal id. -/
structure RowT where
  d : Date
  emp_id : String
  grp : String
  points : ℚ
  shift : String
  memo : String
deriving DecidableEq, Repr

/-- Parse one CSV row into the tuple inserted by the importer
(`df_new[["d","emp_id","grp","points","shift","memo"]]`). -/
def parseRow (cols : List String) (row : List Cell) : RowT :=
  ⟨asDate (getCell cols row "d"), asStr (getCell cols row "emp_id"),
    asStr (getCell cols row "grp"), coercePoints (getCell cols row "points"),
    asStr (getCell cols row "shift"), asStr (getCell cols row "memo")⟩

/-- Model of the `if "shift" not in df_new.columns` column fill (app.py:762-765):
append a column of empty text when absent. -/
def ensureCol (csv : Csv) (c : String) : Csv :=
  if csv.cols.contains c then csv
  else ⟨csv.cols ++ [c], csv.rows.map (fun row => row ++ [Cell.str ""])⟩

/-- Outcome of the CSV importer: the missing-column abort (`st.error` +
`st.stop()` before any deletion), an insert-time constraint violation
(transaction rolled back, so the `DELETE FROM records` is undone too), or
success. -/
inductive CsvOutcome where
  | schemaError
  | integrityError
  | ok
deriving DecidableEq, Repr

/-- Model of the `executemany` insertion of parsed rows with fresh AUTOINCREMENT ids. -/
def insertRows : Nat → List RowT → List Record
  | _, [] => []
  | n, t :: ts => ⟨n, t.d, t.emp_id, t.grp, t.points, t.shift, t.memo⟩ :: insertRows (n + 1) ts

/-- The CSVインポート（上書き復元） handler (app.py:739-781): rename headers,
abort with a schema error if a required column is missing (before the
`DELETE`), fill in absent `shift`/`memo`, coerce `points`, then delete all
records and bulk-insert the parsed rows in one transaction; a
`CHECK(points >= 0)` or `UNIQUE(d, emp_id)` violation rolls everything
back. -/
def csvRestore (csv : Csv) (st : State) : CsvOutcome × State :=
  let renamed : Csv := ⟨csv.cols.map colMap, csv.rows⟩
  if !(needCols.all (fun c => renamed.cols.contains c)) then (.schemaError, st)
  else
    let full := ensureCol (ensureCol renamed "shift") "memo"
    let parsed := full.rows.map (parseRow full.cols)
    let newRecs := insertRows st.nextId parsed
    if parsed.any (fun t => decide (t.points < 0)) || !keysUnique newRecs then
      (.integrityError, st)
    else
      (.ok, { st with records := newRecs, nextId := st.nextId + parsed.length })

/-- The field tuple of a stored record. -/
def fieldsOf (r : Record) : RowT :=
  ⟨r.d, r.emp_id, r.grp, r.points, r.shift, r.memo⟩

/-- Column order of the CSV export (app.py:713-718). -/
def exportCols : List String := ["d", "emp_id", "grp", "points", "shift", "memo"]

/-- One exported CSV row. -/
def exportRow (r : Record) : List Cell :=
  [.date r.d, .str r.emp_id, .str r.grp, .num r.points, .str r.shift, .str r.memo]

/-- Model of the `ORDER BY d ASC` of the export query. -/
def sortRecords (l : List Record) : List Record :=
  l.insertionSort (fun a b => dateLe a.d b.d = true)

/-- The CSV export (app.py:713-724): all records, canonical column order,
sorted by date. -/
def exportAll (st : State) : Csv :=
  ⟨exportCols, (sortRecords st.records).map exportRow⟩

/-- Every stored point value is non-negative (the `CHECK(points >= 0)`
table invariant). -/
def ptsOk (l : List Record) : Prop :=
  ∀ r ∈ l, 0 ≤ r.points

/-- A concrete database state used to instantiate the theorems: two
employees, one record dated 2025-01-15, and the month 2025-01 locked. -/
def sampleState : State :=
  { roster := [⟨"e1", "Alice", "A"⟩, ⟨"e2", "Bob", "B"⟩],
    records := [⟨1, ⟨2025, 1, 15⟩, "e1", "A", 3, "", ""⟩],
    locks := [(2025, 1)],
    nextId := 2 }

/-- A concrete state whose single record is dated in an unlocked month. -/
def openState : State :=
  { roster := [⟨"e1", "Alice", "A"⟩, ⟨"e2", "Bob", "B"⟩],
    records := [⟨1, ⟨2025, 3, 15⟩, "e1", "A", 3, "", ""⟩],
    locks := [(2025, 1)],
    nextId := 2 }

/-! ## Basic lemmas -/

theorem dateLt_irrefl (a : Date) : dateLt a a = false := by
  simp [dateLt]

theorem dateLe_refl (a : Date) : dateLe a a = true := by
  simp [dateLe]

theorem add_record_locked (d : Date) (e : String) (p : ℚ) (st : State)
    (h : is_locked st.locks d = true) :
    add_record d e p st = (.lockedErr, st) := by
  simp [add_record, h]

theorem mem_query_range (st : State) (s f : Date) (r : Record) :
    r ∈ query_range s f st ↔
      r ∈ st.records ∧ dateLe s r.d = true ∧ dateLt r.d f = true := by
  simp [query_range, List.mem_filter]

/-! ## C2: addRecord on a locked month fails and leaves the ledger unchanged -/

/-- C2: for every date `d` and employee `e`, `add_record` with
`is_locked d = true` fails with the locked-period error and returns the
state unchanged (no insert, no update). -/
theorem addRecord_locked_rejected (d : Date) (e : String) (p : ℚ) (st : State)
    (h : is_locked st.locks d = true) :
    add_record d e p st = (.lockedErr, st) :=
  add_record_locked d e p st h

/-- Witness for C2 at a concrete locked state. -/
theorem addRecord_locked_rejected_witness :
    is_locked sampleState.locks ⟨2025, 1, 20⟩ = true ∧
      add_record ⟨2025, 1, 20⟩ "e1" 5 sampleState = (.lockedErr, sampleState) :=
  ⟨by decide, addRecord_locked_rejected ⟨2025, 1, 20⟩ "e1" 5 sampleState (by decide)⟩

/-! ## C5: query_range is exactly the half-open interval -/

/-- C5: `query_range start end` returns exactly the records with
`start <= d < end`; in particular a record dated exactly `start` appears
(whenever the interval is nonempty, i.e. `start < end`) and a record dated
exactly `end` never appears. -/
theorem queryRange_half_open (st : State) (s f : Date) :
    (∀ r : Record, r ∈ query_range s f st ↔
      r ∈ st.records ∧ dateLe s r.d = true ∧ dateLt r.d f = true)
    ∧ (∀ r ∈ st.records, r.d = s → dateLt s f = true → r ∈ query_range s f st)
    ∧ (∀ r : Record, r.d = f → r ∉ query_range s f st) := by
  refine ⟨fun r => mem_query_range st s f r, ?_, ?_⟩
  · intro r hr hd hlt
    exact (mem_query_range st s f r).2 ⟨hr, by rw [hd]; exact dateLe_refl s, by rw [hd]; exact hlt⟩
  · intro r hd hmem
    have := ((mem_query_range st s f r).1 hmem).2.2
    rw [hd] at this
    simp [dateLt_irrefl] at this

/-- Witness for C5: a record dated exactly the start bound is returned. -/
theorem queryRange_half_open_witness :
    (⟨1, ⟨2025, 1, 15⟩, "e1", "A", 3, "", ""⟩ : Record) ∈
      query_range ⟨2025, 1, 15⟩ ⟨2025, 2, 1⟩ sampleState :=
  (queryRange_half_open sampleState ⟨2025, 1, 15⟩ ⟨2025, 2, 1⟩).2.1
    ⟨1, ⟨2025, 1, 15⟩, "e1", "A", 3, "", ""⟩ (by decide) rfl (by decide)

/-! ## C6: month range rolls December over to January -/

/-- C6: the month-range helper maps December of year `y` to
`(y-12-01, (y+1)-01-01)` and any other month `m` to
`(y-m-01, y-(m+1)-01)`; `month_df` queries exactly that interval. -/
theorem monthRange_december_rollover (y day m : Nat) (base : Date) (st : State) :
    month_range ⟨y, 12, day⟩ = (⟨y, 12, 1⟩, ⟨y + 1, 1, 1⟩)
    ∧ (m ≠ 12 → month_range ⟨y, m, day⟩ = (⟨y, m, 1⟩, ⟨y, m + 1, 1⟩))
    ∧ month_df base st = query_range (month_range base).1 (month_range base).2 st := by
  refine ⟨by simp [month_range], fun hm => by simp [month_range, hm], rfl⟩

/-- Witness for C6 at a non-December month. -/
theorem monthRange_december_rollover_witness :
    month_range ⟨2025, 7, 3⟩ = (⟨2025, 7, 1⟩, ⟨2025, 8, 1⟩) :=
  (monthRange_december_rollover 2025 3 7 ⟨2025, 7, 3⟩ sampleState).2.1 (by decide)

/-! ## C7: import with a missing required column aborts before deleting -/

/-- C7: when a required column (`d`, `emp_id`, `grp`, `points`) is still
missing after the header-alias rename, the CSV restore fails with a schema
error and returns the state unchanged — the abort happens before the
`DELETE FROM records`. -/
theorem csvRestore_missing_column (csv : Csv) (st : State)
    (h : needCols.all (fun c => (csv.cols.map colMap).contains c) = false) :
    csvRestore csv st = (.schemaError, st) := by
  simp only [csvRestore]
  rw [h]
  rfl

/-- Witness for C7: an import missing the `points` column is rejected with
the ledger untouched. -/
theorem csvRestore_missing_column_witness :
    needCols.all
        (fun c => ((["日付", "社員ID", "グループ"] : List String).map colMap).contains c) = false
    ∧ csvRestore ⟨["日付", "社員ID", "グループ"], []⟩ sampleState = (.schemaError, sampleState) :=
  ⟨by decide,
    csvRestore_missing_column ⟨["日付", "社員ID", "グループ"], []⟩ sampleState (by decide)⟩

/-! ## Batch-operation lemmas -/

theorem batchUpdateGo_all_locked (locks : List (Nat × Nat)) :
    ∀ (rows : List WorkRow) (recs : List Record),
      (∀ row ∈ rows, is_locked locks row.date = true) →
      batchUpdateGo locks recs rows = some recs := by
  intro rows
  induction rows with
  | nil => intro recs _; rfl
  | cons row rest ih =>
    intro recs h
    have hr : is_locked locks row.date = true := h row (List.mem_cons_self row rest)
    simp only [batchUpdateGo, hr, if_true]
    exact ih recs (fun x hx => h x (List.mem_cons_of_mem row hx))

theorem batchUpdate_all_locked (rows : List WorkRow) (st : State)
    (h : ∀ row ∈ rows, is_locked st.locks row.date = true) :
    batchUpdate rows st = some st := by
  simp only [batchUpdate, batchUpdateGo_all_locked st.locks rows st.records h]
  rfl

theorem batchDelete_all_locked (work : List WorkRow) (ids : List Nat) (st : State)
    (h : ∀ row ∈ work, is_locked st.locks row.date = true) :
    batchDelete work ids st = st := by
  have aux : ∀ (rows : List WorkRow) (recs : List Record),
      (∀ row ∈ rows, is_locked st.locks row.date = true) →
      rows.foldl
        (fun recs row =>
          if is_locked st.locks row.date then recs
          else recs.filter (fun r => !decide (r.id = row.id))) recs = recs := by
    intro rows
    induction rows with
    | nil => intro recs _; rfl
    | cons row rest ih =>
      intro recs hrows
      have hr : is_locked st.locks row.date = true := hrows row (List.mem_cons_self row rest)
      simp only [List.foldl_cons, hr, if_true]
      exact ih recs (fun x hx => hrows x (List.mem_cons_of_mem row hx))
  have hfilter : ∀ row ∈ work.filter (fun row => ids.contains row.id),
      is_locked st.locks row.date = true := by
    intro row hrow
    exact h row (List.mem_of_mem_filter hrow)
  simp only [batchDelete, aux _ st.records hfilter]

theorem batchUpdateGo_eq_map (locks : List (Nat × Nat)) :
    ∀ (rows : List WorkRow) (recs out : List Record),
      batchUpdateGo locks recs rows = some out →
      out = recs.map (fun r => rows.foldl (updStep locks) r) := by
  intro rows
  induction rows with
  | nil =>
    intro recs out h
    simp only [batchUpdateGo, Option.some_inj] at h
    simp [← h]
  | cons row rest ih =>
    intro recs out h
    by_cases hl : is_locked locks row.date = true
    · simp only [batchUpdateGo, hl, if_true] at h
      have := ih recs out h
      rw [this]
      refine List.map_congr_left (fun r _ => ?_)
      simp [List.foldl_cons, updStep, hl]
    · have hl' : is_locked locks row.date = false := by
        cases hb : is_locked locks row.date
        · rfl
        · exact absurd hb hl
      simp only [batchUpdateGo, hl', Bool.false_eq_true, if_false] at h
      by_cases hg : (recs.any (fun r => decide (r.id = row.id)) &&
          (decide (row.points < 0) || !keysUnique (applyRow recs row))) = true
      · rw [if_pos hg] at h
        exact absurd h (by simp)
      · rw [if_neg hg] at h
        have := ih (applyRow recs row) out h
        rw [this, applyRow, List.map_map]
        refine List.map_congr_left (fun r _ => ?_)
        simp [Function.comp, List.foldl_cons, updStep, hl']

/-! ## C3: month-lock enforcement across operations -/

/-- C3 counterexample: the claim that *no* operation mutates records dated
in a locked month fails — with the month 2025-01 locked and a record dated
2025-01-15 present, the full data reset deletes it, and the CSV restore
(here with an empty but schema-valid file) deletes it too; neither path
consults the lock registry. -/
theorem lock_bypass_counterexample :
    is_locked sampleState.locks ⟨2025, 1, 15⟩ = true
    ∧ sampleState.records ≠ []
    ∧ (∀ r ∈ sampleState.records, r.d = ⟨2025, 1, 15⟩)
    ∧ (data_reset sampleState).records = []
    ∧ csvRestore ⟨["d", "emp_id", "grp", "points"], []⟩ sampleState =
        (.ok, { sampleState with records := [], nextId := 2 }) := by
  decide

theorem workRow_filter_swap (p q : WorkRow → Bool) :
    ∀ l : List WorkRow, (l.filter p).filter q = (l.filter q).filter p := by
  intro l
  induction l with
  | nil => rfl
  | cons a t ih =>
    cases hp : p a <;> cases hq : q a <;>
      simp [List.filter_cons, hp, hq, ih]

theorem batchUpdateGo_filter_locked (locks : List (Nat × Nat)) :
    ∀ (rows : List WorkRow) (recs : List Record),
      batchUpdateGo locks recs rows =
        batchUpdateGo locks recs
          (rows.filter (fun row => !is_locked locks row.date)) := by
  intro rows
  induction rows with
  | nil => intro recs; rfl
  | cons row rest ih =>
    intro recs
    cases hl : is_locked locks row.date
    · simp only [List.filter_cons, hl, Bool.not_false, if_true]
      simp only [batchUpdateGo, hl, Bool.false_eq_true, if_false]
      by_cases hg : (recs.any (fun r => decide (r.id = row.id)) &&
          (decide (row.points < 0) || !keysUnique (applyRow recs row))) = true
      · rw [if_pos hg, if_pos hg]
      · rw [if_neg hg, if_neg hg]
        exact ih (applyRow recs row)
    · simp only [List.filter_cons, hl, Bool.not_true, Bool.false_eq_true, if_false]
      simp only [batchUpdateGo, hl, if_true]
      exact ih recs

theorem batchUpdate_filter_locked (rows : List WorkRow) (st : State) :
    batchUpdate rows st =
      batchUpdate (rows.filter (fun row => !is_locked st.locks row.date)) st := by
  simp only [batchUpdate, batchUpdateGo_filter_locked st.locks rows st.records]

theorem delete_foldl_skip (st : State) :
    ∀ (rows : List WorkRow) (recs : List Record),
      rows.foldl
        (fun recs row =>
          if is_locked st.locks row.date then recs
          else recs.filter (fun r => !decide (r.id = row.id))) recs =
      (rows.filter (fun row => !is_locked st.locks row.date)).foldl
        (fun recs row =>
          if is_locked st.locks row.date then recs
          else recs.filter (fun r => !decide (r.id = row.id))) recs := by
  intro rows
  induction rows with
  | nil => intro recs; rfl
  | cons row rest ih =>
    intro recs
    cases hl : is_locked st.locks row.date
    · simp only [List.filter_cons, hl, Bool.not_false, if_true, List.foldl_cons,
        Bool.false_eq_true, if_false]
      exact ih _
    · simp only [List.filter_cons, hl, Bool.not_true, Bool.false_eq_true, if_false,
        List.foldl_cons, if_true]
      exact ih recs

theorem batchDelete_filter_locked (work : List WorkRow) (ids : List Nat) (st : State) :
    batchDelete work ids st =
      batchDelete (work.filter (fun row => !is_locked st.locks row.date)) ids st := by
  simp only [batchDelete]
  rw [delete_foldl_skip st (work.filter (fun row => ids.contains row.id)) st.records,
    workRow_filter_swap]

/-- C3 amended: a locked month blocks `add_record` (rejected, ledger
unchanged), and the batch update and batch delete skip every row whose
*submitted buffer* date lies in a locked month — in any batch, mixed or
not, the lock-skipped rows are excluded from the effective change set
(dropping them from the batch gives the identical result), and an
all-skipped batch is a no-op; the CSV restore and the full data reset are
exempt from the lock check, and the batch paths key the check on the
submitted row date rather than the stored record date. -/
theorem lock_enforcement_amended :
    (∀ (d : Date) (e : String) (p : ℚ) (st : State),
      is_locked st.locks d = true → add_record d e p st = (.lockedErr, st))
    ∧ (∀ (rows : List WorkRow) (st : State),
      batchUpdate rows st =
        batchUpdate (rows.filter (fun row => !is_locked st.locks row.date)) st)
    ∧ (∀ (work : List WorkRow) (ids : List Nat) (st : State),
      batchDelete work ids st =
        batchDelete (work.filter (fun row => !is_locked st.locks row.date)) ids st)
    ∧ (∀ (rows : List WorkRow) (st : State),
      (∀ row ∈ rows, is_locked st.locks row.date = true) →
      batchUpdate rows st = some st)
    ∧ (∀ (work : List WorkRow) (ids : List Nat) (st : State),
      (∀ row ∈ work, is_locked st.locks row.date = true) →
      batchDelete work ids st = st) :=
  ⟨add_record_locked, batchUpdate_filter_locked, batchDelete_filter_locked,
    batchUpdate_all_locked, batchDelete_all_locked⟩

/-- Witness for the amended C3: a locked write rejected, mixed batches whose
locked rows drop out of the effective change set, and all-locked no-ops. -/
theorem lock_enforcement_amended_witness :
    add_record ⟨2025, 1, 20⟩ "e2" 4 sampleState = (.lockedErr, sampleState)
    ∧ batchUpdate
        [⟨1, ⟨2025, 1, 10⟩, "e1", "A", 9⟩, ⟨1, ⟨2025, 2, 10⟩, "e1", "A", 7⟩]
        sampleState =
      batchUpdate
        (([⟨1, ⟨2025, 1, 10⟩, "e1", "A", 9⟩, ⟨1, ⟨2025, 2, 10⟩, "e1", "A", 7⟩] :
            List WorkRow).filter
          (fun row => !is_locked sampleState.locks row.date)) sampleState
    ∧ batchDelete
        [⟨1, ⟨2025, 1, 15⟩, "e1", "A", 3⟩, ⟨1, ⟨2025, 2, 10⟩, "e1", "A", 3⟩]
        [1] sampleState =
      batchDelete
        (([⟨1, ⟨2025, 1, 15⟩, "e1", "A", 3⟩, ⟨1, ⟨2025, 2, 10⟩, "e1", "A", 3⟩] :
            List WorkRow).filter
          (fun row => !is_locked sampleState.locks row.date)) [1] sampleState
    ∧ batchUpdate [⟨1, ⟨2025, 1, 10⟩, "e1", "A", 9⟩] sampleState = some sampleState
    ∧ batchDelete [⟨1, ⟨2025, 1, 15⟩, "e1", "A", 3⟩] [1] sampleState = sampleState :=
  ⟨lock_enforcement_amended.1 ⟨2025, 1, 20⟩ "e2" 4 sampleState (by decide),
    lock_enforcement_amended.2.1
      [⟨1, ⟨2025, 1, 10⟩, "e1", "A", 9⟩, ⟨1, ⟨2025, 2, 10⟩, "e1", "A", 7⟩] sampleState,
    lock_enforcement_amended.2.2.1
      [⟨1, ⟨2025, 1, 15⟩, "e1", "A", 3⟩, ⟨1, ⟨2025, 2, 10⟩, "e1", "A", 3⟩] [1] sampleState,
    lock_enforcement_amended.2.2.2.1
      [⟨1, ⟨2025, 1, 10⟩, "e1", "A", 9⟩] sampleState (by decide),
    lock_enforcement_amended.2.2.2.2
      [⟨1, ⟨2025, 1, 15⟩, "e1", "A", 3⟩] [1] sampleState (by decide)⟩

/-! ## C4: batch update skip semantics -/

/-- C4 counterexample: a work-buffer row whose *stored record* is dated in
the locked month 2025-01 but whose submitted (edited) date 2025-02-10 lies
in an unlocked month is applied, not skipped — the stored record changes. -/
theorem batchUpdate_ignores_stored_date_counterexample :
    is_locked sampleState.locks ⟨2025, 1, 15⟩ = true
    ∧ (∀ r ∈ sampleState.records, r.d = ⟨2025, 1, 15⟩)
    ∧ batchUpdate [⟨1, ⟨2025, 2, 10⟩, "e1", "A", 7⟩] sampleState =
        some { sampleState with records := [⟨1, ⟨2025, 2, 10⟩, "e1", "A", 7, "", ""⟩] }
    ∧ ({ sampleState with
          records := [⟨1, ⟨2025, 2, 10⟩, "e1", "A", 7, "", ""⟩] } : State).records ≠
        sampleState.records := by
  decide

/-- C4 amended: in the batch update, a row is skipped iff the *submitted*
row date's month is locked (not the record's current stored month); on a
successful batch every record equals the in-order fold of the non-skipped
`UPDATE`s keyed by id, and a batch whose rows are all lock-skipped
succeeds with the ledger unchanged. -/
theorem batchUpdate_skip_by_submitted_date (rows : List WorkRow) (st : State) :
    (∀ st', batchUpdate rows st = some st' →
      st'.records = st.records.map (fun r => rows.foldl (updStep st.locks) r))
    ∧ ((∀ row ∈ rows, is_locked st.locks row.date = true) →
      batchUpdate rows st = some st) := by
  constructor
  · intro st' h
    cases hgo : batchUpdateGo st.locks st.records rows with
    | none => simp [batchUpdate, hgo] at h
    | some out =>
      simp only [batchUpdate, hgo, Option.map] at h
      have hout := batchUpdateGo_eq_map st.locks rows st.records out hgo
      cases h
      exact hout
  · exact batchUpdate_all_locked rows st

/-- Witness for the amended C4: a mixed batch — one row lock-skipped by its
submitted date, one row applied — matches the per-record fold semantics. -/
theorem batchUpdate_skip_by_submitted_date_witness :
    ({ sampleState with
        records := [⟨1, ⟨2025, 2, 10⟩, "e1", "A", 7, "", ""⟩] } : State).records =
      sampleState.records.map
        (fun r =>
          ([⟨1, ⟨2025, 1, 10⟩, "e1", "A", 9⟩, ⟨1, ⟨2025, 2, 10⟩, "e1", "A", 7⟩] :
            List WorkRow).foldl (updStep sampleState.locks) r) :=
  (batchUpdate_skip_by_submitted_date
      [⟨1, ⟨2025, 1, 10⟩, "e1", "A", 9⟩, ⟨1, ⟨2025, 2, 10⟩, "e1", "A", 7⟩]
      sampleState).1
    { sampleState with records := [⟨1, ⟨2025, 2, 10⟩, "e1", "A", 7, "", ""⟩] }
    (by decide)

/-! ## add_record path lemmas -/

theorem add_record_update_eq (d : Date) (e g : String) (p : ℚ) (st : State)
    (hl : is_locked st.locks d = false)
    (hr : lookupGrp st.roster e = some g)
    (hx : st.records.any (keyMatch d e) = true)
    (hp : 0 ≤ p) :
    add_record d e p st =
      (.updated,
        { st with
          records := st.records.map (fun r =>
            if keyMatch d e r then { r with grp := g, points := p } else r) }) := by
  simp [add_record, hl, hr, hx, not_lt.2 hp]

theorem add_record_insert_eq (d : Date) (e g : String) (p : ℚ) (st : State)
    (hl : is_locked st.locks d = false)
    (hr : lookupGrp st.roster e = some g)
    (hx : st.records.any (keyMatch d e) = false)
    (hp : 0 ≤ p) :
    add_record d e p st =
      (.created,
        { st with
          records := st.records ++ [⟨st.nextId, d, e, g, p, "", ""⟩],
          nextId := st.nextId + 1 }) := by
  simp [add_record, hl, hr, hx, not_lt.2 hp]

/-! ## C10: the upsert path only touches grp and points of the keyed record -/

/-- C10: when `add_record` takes the upsert path (the key exists, the month
is unlocked, the employee is in the roster, the points pass the CHECK),
the record list keeps its length and order; every record keeps its `id`,
`d`, `emp_id`, `shift` and `memo`; records not matching the key are
completely unchanged; the matching record gets exactly the new `grp` and
`points`; and the roster, locks and id counter are untouched. -/
theorem addRecord_upsert_frame (d : Date) (e g : String) (p : ℚ) (st : State)
    (hl : is_locked st.locks d = false)
    (hr : lookupGrp st.roster e = some g)
    (hx : st.records.any (keyMatch d e) = true)
    (hp : 0 ≤ p) :
    (add_record d e p st).1 = .updated
    ∧ (add_record d e p st).2.roster = st.roster
    ∧ (add_record d e p st).2.locks = st.locks
    ∧ (add_record d e p st).2.nextId = st.nextId
    ∧ (add_record d e p st).2.records.length = st.records.length
    ∧ ∀ (i : Nat) (h1 : i < st.records.length)
        (h2 : i < (add_record d e p st).2.records.length),
        ((add_record d e p st).2.records.get ⟨i, h2⟩).id = (st.records.get ⟨i, h1⟩).id
        ∧ ((add_record d e p st).2.records.get ⟨i, h2⟩).d = (st.records.get ⟨i, h1⟩).d
        ∧ ((add_record d e p st).2.records.get ⟨i, h2⟩).emp_id = (st.records.get ⟨i, h1⟩).emp_id
        ∧ ((add_record d e p st).2.records.get ⟨i, h2⟩).shift = (st.records.get ⟨i, h1⟩).shift
        ∧ ((add_record d e p st).2.records.get ⟨i, h2⟩).memo = (st.records.get ⟨i, h1⟩).memo
        ∧ (keyMatch d e (st.records.get ⟨i, h1⟩) = false →
            (add_record d e p st).2.records.get ⟨i, h2⟩ = st.records.get ⟨i, h1⟩)
        ∧ (keyMatch d e (st.records.get ⟨i, h1⟩) = true →
            ((add_record d e p st).2.records.get ⟨i, h2⟩).grp = g
            ∧ ((add_record d e p st).2.records.get ⟨i, h2⟩).points = p) := by
  rw [add_record_update_eq d e g p st hl hr hx hp]
  refine ⟨rfl, rfl, rfl, rfl, List.length_map _ _, ?_⟩
  intro i h1 h2
  simp only [List.get_map]
  cases hk : keyMatch d e (st.records.get ⟨i, h1⟩) <;> simp [hk]

/-- Witness for C10: a concrete upsert reports the `Updated` status and
preserves the record's identity fields. -/
theorem addRecord_upsert_frame_witness :
    (add_record ⟨2025, 3, 15⟩ "e1" 5 openState).1 = .updated ∧
      (add_record ⟨2025, 3, 15⟩ "e1" 5 openState).2.nextId = openState.nextId :=
  ⟨(addRecord_upsert_frame ⟨2025, 3, 15⟩ "e1" "A" 5 openState
      (by decide) (by decide) (by decide) (by decide)).1,
    (addRecord_upsert_frame ⟨2025, 3, 15⟩ "e1" "A" 5 openState
      (by decide) (by decide) (by decide) (by decide)).2.2.2.1⟩

/-! ## C9 lemmas: the CHECK(points >= 0) constraint -/

theorem add_record_neg (d : Date) (e : String) (p : ℚ) (st : State)
    (hp : p < 0) :
    (add_record d e p st).2 = st
    ∧ (add_record d e p st).1 ≠ .updated ∧ (add_record d e p st).1 ≠ .created := by
  have h3 : add_record d e p st = (.lockedErr, st)
      ∨ add_record d e p st = (.unknownEmp, st)
      ∨ add_record d e p st = (.checkViolation, st) := by
    unfold add_record
    split
    · exact Or.inl rfl
    · split
      · exact Or.inr (Or.inl rfl)
      · split <;> exact Or.inr (Or.inr rfl)
  rcases h3 with h | h | h <;> rw [h] <;> exact ⟨rfl, by simp, by simp⟩

theorem ptsOk_add_record (d : Date) (e : String) (p : ℚ) (st : State)
    (h : ptsOk st.records) : ptsOk (add_record d e p st).2.records := by
  unfold add_record
  split
  · exact h
  · split
    · exact h
    · split
      · split
        · exact h
        · rename_i hp
          intro r hr
          simp only [List.mem_map] at hr
          obtain ⟨r0, hr0, rfl⟩ := hr
          cases hk : keyMatch d e r0 <;> simp [hk]
          · exact h r0 hr0
          · exact not_lt.1 hp
      · split
        · exact h
        · rename_i hp
          intro r hr
          simp only [List.mem_append, List.mem_singleton] at hr
          rcases hr with hr | rfl
          · exact h r hr
          · exact not_lt.1 hp

theorem ptsOk_batchUpdateGo (locks : List (Nat × Nat)) :
    ∀ (rows : List WorkRow) (recs out : List Record),
      ptsOk recs → batchUpdateGo locks recs rows = some out → ptsOk out := by
  intro rows
  induction rows with
  | nil =>
    intro recs out h heq
    simp only [batchUpdateGo, Option.some_inj] at heq
    rw [← heq]
    exact h
  | cons row rest ih =>
    intro recs out h heq
    by_cases hl : is_locked locks row.date = true
    · simp only [batchUpdateGo, hl, if_true] at heq
      exact ih recs out h heq
    · have hl' : is_locked locks row.date = false := by
        cases hb : is_locked locks row.date
        · rfl
        · exact absurd hb hl
      simp only [batchUpdateGo, hl', Bool.false_eq_true, if_false] at heq
      by_cases hg : (recs.any (fun r => decide (r.id = row.id)) &&
          (decide (row.points < 0) || !keysUnique (applyRow recs row))) = true
      · rw [if_pos hg] at heq
        exact absurd heq (by simp)
      · rw [if_neg hg] at heq
        refine ih (applyRow recs row) out ?_ heq
        intro r hr
        simp only [applyRow, List.mem_map] at hr
        obtain ⟨r0, hr0, rfl⟩ := hr
        unfold upd_row
        split
        · rename_i hid
          have hany : recs.any (fun r => decide (r.id = row.id)) = true :=
            List.any_eq_true.2 ⟨r0, hr0, by simp [hid]⟩
          have hneg : decide (row.points < 0) = false := by
            cases hd : decide (row.points < 0)
            · rfl
            · exact absurd (by simp [hany, hd]) hg
          exact not_lt.1 (of_decide_eq_false hneg)
        · exact h r0 hr0

theorem ptsOk_batchDelete (work : List WorkRow) (ids : List Nat) (st : State)
    (h : ptsOk st.records) : ptsOk (batchDelete work ids st).records := by
  have aux : ∀ (rows : List WorkRow) (recs : List Record) (r : Record),
      r ∈ rows.foldl
        (fun recs row =>
          if is_locked st.locks row.date then recs
          else recs.filter (fun r => !decide (r.id = row.id))) recs → r ∈ recs := by
    intro rows
    induction rows with
    | nil => intro recs r hr; exact hr
    | cons row rest ih =>
      intro recs r hr
      simp only [List.foldl_cons] at hr
      have := ih _ r hr
      split at this
      · exact this
      · exact List.mem_of_mem_filter this
  intro r hr
  exact h r (aux _ st.records r hr)

theorem mem_insertRows :
    ∀ (ts : List RowT) (n : Nat) (r : Record),
      r ∈ insertRows n ts → ∃ t ∈ ts, r.points = t.points := by
  intro ts
  induction ts with
  | nil => intro n r hr; simp [insertRows] at hr
  | cons t rest ih =>
    intro n r hr
    simp only [insertRows, List.mem_cons] at hr
    rcases hr with rfl | hr
    · exact ⟨t, List.mem_cons_self t rest, rfl⟩
    · obtain ⟨t', ht', hpts⟩ := ih (n + 1) r hr
      exact ⟨t', List.mem_cons_of_mem t ht', hpts⟩

theorem ptsOk_csvRestore (csv : Csv) (st : State)
    (h : ptsOk st.records) : ptsOk (csvRestore csv st).2.records := by
  simp only [csvRestore]
  split
  · exact h
  · split
    · exact h
    · rename_i hg
      intro r hr
      simp only at hr
      obtain ⟨t, ht, hpts⟩ := mem_insertRows _ st.nextId r hr
      rw [hpts]
      by_cases hneg : (0 : ℚ) ≤ t.points
      · exact hneg
      · exfalso
        apply hg
        have : ((ensureCol (ensureCol ⟨csv.cols.map colMap, csv.rows⟩ "shift") "memo").rows.map
            (parseRow (ensureCol (ensureCol ⟨csv.cols.map colMap, csv.rows⟩ "shift") "memo").cols)).any
            (fun t => decide (t.points < 0)) = true :=
          List.any_eq_true.2 ⟨t, ht, by simp [not_le.1 hneg]⟩
        simp [this]

theorem csvRestore_fail_unchanged (csv : Csv) (st : State)
    (h : (csvRestore csv st).1 ≠ .ok) : (csvRestore csv st).2 = st := by
  simp only [csvRestore] at h ⊢
  split at h
  · split
    · rfl
    · simp_all
  · split at h
    · split
      · simp_all
      · rfl
    · exact absurd rfl h

/-! ## C9: points are non-negative and negative writes are rejected -/

/-- C9: a negative point value is never stored and never clamped — a
negative `add_record` fails (CHECK violation or earlier error) with the
state unchanged; every mutation path (`add_record`, batch update, batch
delete, CSV restore, data reset) preserves the all-points-non-negative
invariant; and a failed CSV restore leaves the state unchanged. -/
theorem points_nonneg_enforced :
    (∀ (d : Date) (e : String) (p : ℚ) (st : State), p < 0 →
      (add_record d e p st).2 = st
      ∧ (add_record d e p st).1 ≠ .updated ∧ (add_record d e p st).1 ≠ .created)
    ∧ (∀ (d : Date) (e : String) (p : ℚ) (st : State),
      ptsOk st.records → ptsOk (add_record d e p st).2.records)
    ∧ (∀ (rows : List WorkRow) (st st' : State),
      ptsOk st.records → batchUpdate rows st = some st' → ptsOk st'.records)
    ∧ (∀ (work : List WorkRow) (ids : List Nat) (st : State),
      ptsOk st.records → ptsOk (batchDelete work ids st).records)
    ∧ (∀ (csv : Csv) (st : State),
      ptsOk st.records → ptsOk (csvRestore csv st).2.records)
    ∧ (∀ (csv : Csv) (st : State),
      (csvRestore csv st).1 ≠ .ok → (csvRestore csv st).2 = st)
    ∧ (∀ st : State, ptsOk (data_reset st).records) := by
  refine ⟨add_record_neg, ptsOk_add_record, ?_, ptsOk_batchDelete,
    ptsOk_csvRestore, csvRestore_fail_unchanged, ?_⟩
  · intro rows st st' h heq
    cases hgo : batchUpdateGo st.locks st.records rows with
    | none => simp [batchUpdate, hgo] at heq
    | some out =>
      simp only [batchUpdate, hgo, Option.map] at heq
      cases heq
      exact ptsOk_batchUpdateGo st.locks rows st.records out h hgo
  · intro st r hr
    simp [data_reset] at hr

/-- Witness for C9: a concrete negative write is rejected with the ledger
unchanged. -/
theorem points_nonneg_enforced_witness :
    (add_record ⟨2025, 3, 20⟩ "e1" (-1) openState).2 = openState
    ∧ (add_record ⟨2025, 3, 20⟩ "e1" (-1) openState).1 ≠ .updated
    ∧ (add_record ⟨2025, 3, 20⟩ "e1" (-1) openState).1 ≠ .created :=
  points_nonneg_enforced.1 ⟨2025, 3, 20⟩ "e1" (-1) openState (by decide)

/-! ## C1 lemmas: key-filter reasoning under the uniqueness constraint -/

theorem keyMatch_upd (d : Date) (e g : String) (q : ℚ) (r : Record) :
    keyMatch d e
      (if keyMatch d e r then { r with grp := g, points := q } else r) =
      keyMatch d e r := by
  cases hk : keyMatch d e r
  · simp [hk]
  · simp only [hk, if_true]
    simp [keyMatch] at hk ⊢
    exact hk

theorem filter_map_pres {f : Record → Record} {q : Record → Bool}
    (hf : ∀ r, q (f r) = q r) :
    ∀ l : List Record, (l.map f).filter q = (l.filter q).map f := by
  intro l
  induction l with
  | nil => rfl
  | cons a t ih =>
    cases h : q a
    · simp [List.filter_cons, hf a, h, ih]
    · simp [List.filter_cons, hf a, h, ih]

theorem filter_nil_of_any_false (q : Record → Bool) (l : List Record)
    (h : l.any q = false) : l.filter q = [] := by
  simp only [List.any_eq_false] at h
  exact List.filter_eq_nil_iff.2 h

theorem filter_singleton_of_keysUnique (d : Date) (e : String) :
    ∀ l : List Record, keysUnique l = true → l.any (keyMatch d e) = true →
      ∃ r, l.filter (keyMatch d e) = [r] ∧ keyMatch d e r = true := by
  intro l
  induction l with
  | nil => intro _ h; simp at h
  | cons a t ih =>
    intro hU hany
    have hU' : (t.all
          (fun s => !(decide (s.d = a.d) && decide (s.emp_id = a.emp_id))) = true)
        ∧ keysUnique t = true := by
      simpa [keysUnique, Bool.and_eq_true] using hU
    cases hk : keyMatch d e a
    · have hany' : t.any (keyMatch d e) = true := by
        simp only [List.any_cons, hk, Bool.false_or] at hany
        exact hany
      obtain ⟨r, hfil, hkr⟩ := ih hU'.2 hany'
      exact ⟨r, by simp [List.filter_cons, hk, hfil], hkr⟩
    · have hka : a.d = d ∧ a.emp_id = e := by simpa [keyMatch] using hk
      have hnone : t.filter (keyMatch d e) = [] := by
        apply filter_nil_of_any_false
        cases hta : t.any (keyMatch d e)
        · rfl
        · exfalso
          obtain ⟨s, hs, hks⟩ := List.any_eq_true.1 hta
          have hsk : s.d = d ∧ s.emp_id = e := by simpa [keyMatch] using hks
          have hall := (List.all_eq_true.1 hU'.1) s hs
          rw [hsk.1, hsk.2, hka.1, hka.2] at hall
          simp at hall
      exact ⟨a, by simp [List.filter_cons, hk, hnone], hk⟩

/-! ## C1: once-daily upsert is last-write-wins -/

/-- C1: two successive `add_record` calls with the same `(date, employee)`,
neither blocked by a month lock, the employee present in the roster, and
point values passing the CHECK, leave exactly one record keyed
`(date, employee)` in the ledger; its points equal the second call's value
and its team equals the roster's team for the employee at the time of the
second call. -/
theorem addRecord_upsert_last_write_wins (d : Date) (e g : String)
    (p1 p2 : ℚ) (st : State)
    (hU : keysUnique st.records = true)
    (hl : is_locked st.locks d = false)
    (hr : lookupGrp st.roster e = some g)
    (h1 : 0 ≤ p1) (h2 : 0 ≤ p2) :
    ∃ r : Record,
      (add_record d e p2 (add_record d e p1 st).2).2.records.filter (keyMatch d e) = [r]
      ∧ r.points = p2
      ∧ lookupGrp (add_record d e p1 st).2.roster e = some r.grp := by
  cases hx : st.records.any (keyMatch d e)
  · -- first call inserts a fresh record, second call overwrites it
    have e1 := add_record_insert_eq d e g p1 st hl hr hx h1
    have hrec1 : (add_record d e p1 st).2.records =
        st.records ++ [⟨st.nextId, d, e, g, p1, "", ""⟩] := by rw [e1]
    have hrost1 : (add_record d e p1 st).2.roster = st.roster := by rw [e1]
    have hlock1 : (add_record d e p1 st).2.locks = st.locks := by rw [e1]
    have hany : (add_record d e p1 st).2.records.any (keyMatch d e) = true := by
      rw [hrec1]
      simp [List.any_append, keyMatch]
    have e2 := add_record_update_eq d e g p2 ((add_record d e p1 st).2)
      (by rw [hlock1]; exact hl) (by rw [hrost1]; exact hr) hany h2
    have hrec2 : (add_record d e p2 (add_record d e p1 st).2).2.records =
        (add_record d e p1 st).2.records.map (fun r =>
          if keyMatch d e r then { r with grp := g, points := p2 } else r) := by
      rw [e2]
    refine ⟨⟨st.nextId, d, e, g, p2, "", ""⟩, ?_, rfl, ?_⟩
    · rw [hrec2, hrec1, filter_map_pres (keyMatch_upd d e g p2),
        List.filter_append, filter_nil_of_any_false _ _ hx]
      simp [List.filter_cons, keyMatch]
    · rw [hrost1]
      exact hr
  · -- both calls take the UPDATE path on the unique keyed record
    have e1 := add_record_update_eq d e g p1 st hl hr hx h1
    have hrec1 : (add_record d e p1 st).2.records =
        st.records.map (fun r =>
          if keyMatch d e r then { r with grp := g, points := p1 } else r) := by
      rw [e1]
    have hrost1 : (add_record d e p1 st).2.roster = st.roster := by rw [e1]
    have hlock1 : (add_record d e p1 st).2.locks = st.locks := by rw [e1]
    have hany : (add_record d e p1 st).2.records.any (keyMatch d e) = true := by
      rw [hrec1, List.any_map]
      have hcomp : (keyMatch d e ∘ fun r =>
          if keyMatch d e r then { r with grp := g, points := p1 } else r) =
          keyMatch d e := funext (fun r => keyMatch_upd d e g p1 r)
      rw [hcomp]
      exact hx
    have e2 := add_record_update_eq d e g p2 ((add_record d e p1 st).2)
      (by rw [hlock1]; exact hl) (by rw [hrost1]; exact hr) hany h2
    have hrec2 : (add_record d e p2 (add_record d e p1 st).2).2.records =
        (add_record d e p1 st).2.records.map (fun r =>
          if keyMatch d e r then { r with grp := g, points := p2 } else r) := by
      rw [e2]
    obtain ⟨r0, hfil, hk0⟩ := filter_singleton_of_keysUnique d e st.records hU hx
    have hka : r0.d = d ∧ r0.emp_id = e := by simpa [keyMatch] using hk0
    refine ⟨⟨r0.id, r0.d, r0.emp_id, g, p2, r0.shift, r0.memo⟩, ?_, rfl, ?_⟩
    · rw [hrec2, hrec1, filter_map_pres (keyMatch_upd d e g p2),
        filter_map_pres (keyMatch_upd d e g p1), hfil]
      simp [hk0, keyMatch, hka.1, hka.2]
    · rw [hrost1]
      exact hr

/-- Witness for C1 at a concrete state: the surviving record carries the
second call's points. -/
theorem addRecord_upsert_last_write_wins_witness :
    ∃ r : Record,
      (add_record ⟨2025, 3, 15⟩ "e1" 7
          (add_record ⟨2025, 3, 15⟩ "e1" 5 openState).2).2.records.filter
          (keyMatch ⟨2025, 3, 15⟩ "e1") = [r]
      ∧ r.points = 7
      ∧ lookupGrp (add_record ⟨2025, 3, 15⟩ "e1" 5 openState).2.roster "e1" =
          some r.grp :=
  addRecord_upsert_last_write_wins ⟨2025, 3, 15⟩ "e1" "A" 5 7 openState
    (by decide) (by decide) (by decide) (by decide) (by decide)

/-! ## C8 lemmas: export/import round trip -/

theorem parseRow_exportRow (r : Record) :
    parseRow exportCols (exportRow r) = fieldsOf r := rfl

theorem insertRows_map_fieldsOf :
    ∀ (ts : List RowT) (n : Nat), (insertRows n ts).map fieldsOf = ts := by
  intro ts
  induction ts with
  | nil => intro n; rfl
  | cons t rest ih =>
    intro n
    simp only [insertRows, List.map_cons, ih (n + 1)]
    rfl

theorem insertRows_map_key :
    ∀ (ts : List RowT) (n : Nat),
      (insertRows n ts).map (fun r => (r.d, r.emp_id)) =
        ts.map (fun t => (t.d, t.emp_id)) := by
  intro ts
  induction ts with
  | nil => intro n; rfl
  | cons t rest ih =>
    intro n
    simp only [insertRows, List.map_cons, ih (n + 1)]

theorem keysUnique_iff_nodup :
    ∀ l : List Record,
      keysUnique l = true ↔ (l.map (fun r => (r.d, r.emp_id))).Nodup := by
  intro l
  induction l with
  | nil => simp [keysUnique]
  | cons a t ih =>
    simp only [keysUnique, Bool.and_eq_true, List.map_cons, List.nodup_cons,
      List.all_eq_true, ih]
    constructor
    · rintro ⟨h1, h2⟩
      refine ⟨?_, h2⟩
      intro hmem
      obtain ⟨s, hs, heq⟩ := List.mem_map.1 hmem
      have hbool := h1 s hs
      have hd : s.d = a.d := congrArg Prod.fst heq
      have he : s.emp_id = a.emp_id := congrArg Prod.snd heq
      rw [hd, he] at hbool
      simp at hbool
    · rintro ⟨h1, h2⟩
      refine ⟨?_, h2⟩
      intro s hs
      rcases Decidable.em (s.d = a.d) with h₁ | h₁
      · rcases Decidable.em (s.emp_id = a.emp_id) with h₂ | h₂
        · exact absurd (List.mem_map.2 ⟨s, hs, by rw [h₁, h₂]⟩) h1
        · simp [h₂]
      · simp [h₁]

/-! ## C8: a full export followed by import/replace preserves the record set -/

/-- C8: for any ledger satisfying the table constraints
(`CHECK(points >= 0)` and `UNIQUE(d, emp_id)`), restoring the full CSV
export succeeds and the multiset of record field tuples
(date, employee, team, points, shift, memo) is unchanged — internal ids
aside, the ledger's record set is preserved. -/
theorem export_reimport_round_trip (st : State)
    (hNN : ptsOk st.records) (hU : keysUnique st.records = true) :
    ∃ st' : State, csvRestore (exportAll st) st = (.ok, st')
      ∧ List.Perm (st'.records.map fieldsOf) (st.records.map fieldsOf) := by
  have hsorted : List.Perm (sortRecords st.records) st.records :=
    List.perm_insertionSort _ _
  have hcols : exportCols.map colMap = exportCols := by decide
  have hneed : (needCols.all fun c => exportCols.contains c) = true := by decide
  have hshift :
      ensureCol ⟨exportCols, (sortRecords st.records).map exportRow⟩ "shift" =
        ⟨exportCols, (sortRecords st.records).map exportRow⟩ := by
    simp only [ensureCol]
    rw [if_pos (by decide : (exportCols.contains "shift") = true)]
  have hmemo :
      ensureCol ⟨exportCols, (sortRecords st.records).map exportRow⟩ "memo" =
        ⟨exportCols, (sortRecords st.records).map exportRow⟩ := by
    simp only [ensureCol]
    rw [if_pos (by decide : (exportCols.contains "memo") = true)]
  have hparse :
      ((sortRecords st.records).map exportRow).map (parseRow exportCols) =
        (sortRecords st.records).map fieldsOf := by
    rw [List.map_map]
    exact List.map_congr_left (fun r _ => rfl)
  have hneg :
      ((sortRecords st.records).map fieldsOf).any
        (fun t => decide (t.points < 0)) = false := by
    simp only [List.any_eq_false, List.mem_map]
    rintro t ⟨r, hr, rfl⟩
    have : r ∈ st.records := hsorted.subset hr
    simpa using not_lt.2 (hNN r this)
  have hkeys :
      keysUnique (insertRows st.nextId ((sortRecords st.records).map fieldsOf)) =
        true := by
    rw [keysUnique_iff_nodup, insertRows_map_key, List.map_map]
    have hmap :
        ((sortRecords st.records).map
          ((fun t => (t.d, t.emp_id)) ∘ fieldsOf)) =
          (sortRecords st.records).map (fun r => (r.d, r.emp_id)) :=
      List.map_congr_left (fun r _ => rfl)
    rw [hmap]
    have hperm := hsorted.map (fun r => (r.d, r.emp_id))
    exact hperm.nodup_iff.2 ((keysUnique_iff_nodup st.records).1 hU)
  refine ⟨{ st with
      records := insertRows st.nextId ((sortRecords st.records).map fieldsOf),
      nextId := st.nextId + ((sortRecords st.records).map fieldsOf).length },
    ?_, ?_⟩
  · simp only [csvRestore, exportAll, hcols]
    rw [hneed]
    simp only [Bool.not_true, Bool.false_eq_true, if_false]
    rw [hshift, hmemo]
    simp only
    rw [hparse, hneg]
    simp only [hkeys, Bool.not_true, Bool.or_self, Bool.false_eq_true, if_false]
  · rw [insertRows_map_fieldsOf]
    exact hsorted.map fieldsOf

/-- Witness for C8 at a concrete ledger. -/
theorem export_reimport_round_trip_witness :
    ∃ st' : State, csvRestore (exportAll openState) openState = (.ok, st')
      ∧ List.Perm (st'.records.map fieldsOf) (openState.records.map fieldsOf) :=
  export_reimport_round_trip openState (by unfold ptsOk; decide) (by decide)

end BPoint
